import Mathlib

/-!
Verification development for the gamblers trading-swarm repository.

The capital ledger (`src/core/portfolio.py`), the hivemind consensus stage
(`src/core/hivemind.py`), the market-data cache (`src/core/market_data.py`)
and the swarm dispatch loop (`src/swarm.py`) are embedded shallowly:

* Python `float` values are modelled as exact rationals (`ℚ`); the literal
  `1e-9` tolerance of `validate_trade` becomes `1 / 1000000000`.
* Python dicts keyed by strings are modelled either as association lists
  (`_agent_balances`, whose finite sum the treasury claims need) or as total
  functions with default `0` / `none` (`defaultdict` fields and caches);
  the observable state (what every getter returns) is preserved exactly.
* Fallible code paths (`KeyError` on a missing balance entry, HTTP fetches)
  return `Option`.
-/

/-- Model of Python `str.upper()` restricted to the way the code uses it:
character-wise upper-casing. (`String.toUpper` itself does exactly this but
does not reduce in the kernel, so we map over the character list.) -/
def upper (s : String) : String := ⟨s.data.map Char.toUpper⟩

/-- The numeric tolerance `1e-9` used by `Portfolio.validate_trade`. -/
def tol : ℚ := 1 / 1000000000

/-- Result object of `Portfolio.validate_trade` (class `TradeValidation`). -/
structure TradeValidation where
  success : Bool
  message : String
deriving DecidableEq

/-- State of `Portfolio` (src/core/portfolio.py).  `_agent_balances` is an
association list mirroring the Python dict (a key occurs at most once in any
state reachable by the API); `_agent_positions` and `_positions` are
`defaultdict(float)`s, modelled as total functions defaulting to `0`, which
is exactly their observable behaviour. -/
structure Portfolio where
  starting_cash : ℚ
  cash_reserve : ℚ
  agent_balances : List (String × ℚ)
  agent_positions : String → String → ℚ
  positions : String → ℚ

/-- Embedding of `Portfolio.__init__(starting_cash)`. -/
def Portfolio.init (starting_cash : ℚ) : Portfolio :=
  { starting_cash := starting_cash
  , cash_reserve := starting_cash
  , agent_balances := []
  , agent_positions := fun _ _ => 0
  , positions := fun _ => 0 }

/-- Overwrite the value stored under `name` in an association list (used for
`self._agent_balances[agent_name] = ...` on an existing key). -/
def setBal (l : List (String × ℚ)) (name : String) (v : ℚ) : List (String × ℚ) :=
  l.map (fun pr => if pr.1 = name then (pr.1, v) else pr)

/-- Embedding of `Portfolio.register_agent`: returns the existing balance unchanged if the
agent is already registered; otherwise allocates
`min(max(0, desired_allocation), cash_reserve)`, decrements the treasury and
records the balance.  Returns (allocation, new state). -/
def Portfolio.register_agent (p : Portfolio) (agent_name : String)
    (desired_allocation : ℚ) : ℚ × Portfolio :=
  match p.agent_balances.lookup agent_name with
  | some b => (b, p)
  | none =>
    let allocation := min (max 0 desired_allocation) p.cash_reserve
    (allocation,
      { p with
        cash_reserve := p.cash_reserve - allocation
        agent_balances := p.agent_balances ++ [(agent_name, allocation)] })

/-- Embedding of `Portfolio.get_agent_balance` (`dict.get(name, 0.0)`). -/
def Portfolio.get_agent_balance (p : Portfolio) (agent_name : String) : ℚ :=
  (p.agent_balances.lookup agent_name).getD 0

/-- Embedding of `Portfolio.validate_trade`.  Pure: the Python method only reads the ledger
(the `defaultdict` entry it materialises for the agent is observationally the
empty position map, which the function model renders as a no-op). -/
def Portfolio.validate_trade (p : Portfolio) (agent_name token_id side : String)
    (amount price : ℚ) : TradeValidation :=
  let side_norm := upper side
  let shares := if price ≠ 0 then amount / price else 0
  let balance := (p.agent_balances.lookup agent_name).getD 0
  if side_norm = "BUY" then
    if amount > balance + tol then ⟨false, "Insufficient allocated funds"⟩
    else if amount ≤ 0 then ⟨false, "Amount must be positive"⟩
    else ⟨true, ""⟩
  else if side_norm = "SELL" then
    if shares > p.agent_positions agent_name token_id + tol then
      ⟨false, "Insufficient position to sell"⟩
    else ⟨true, ""⟩
  else ⟨false, "Unknown side " ++ side⟩

/-- Embedding of `Portfolio.apply_trade`.  Returns `none` where Python raises `KeyError`
(the agent has no balance entry); otherwise returns the new balance that the
method returns, together with the new ledger state. -/
def Portfolio.apply_trade (p : Portfolio) (agent_name token_id side : String)
    (amount price : ℚ) : Option (ℚ × Portfolio) :=
  let side_norm := upper side
  let shares := if price ≠ 0 then amount / price else 0
  if side_norm = "BUY" then
    match p.agent_balances.lookup agent_name with
    | none => none
    | some b =>
      let b2 := b - amount
      some (b2,
        { p with
          agent_balances := setBal p.agent_balances agent_name b2
          agent_positions := fun a t =>
            if a = agent_name ∧ t = token_id then p.agent_positions a t + shares
            else p.agent_positions a t
          positions := fun t =>
            if t = token_id then p.positions t + shares else p.positions t })
  else if side_norm = "SELL" then
    match p.agent_balances.lookup agent_name with
    | none => none
    | some b =>
      let b2 := b + amount
      some (b2,
        { p with
          agent_balances := setBal p.agent_balances agent_name b2
          agent_positions := fun a t =>
            if a = agent_name ∧ t = token_id then
              max 0 (p.agent_positions a t - shares)
            else p.agent_positions a t
          positions := fun t =>
            if t = token_id then max 0 (p.positions t - shares)
            else p.positions t })
  else
    match p.agent_balances.lookup agent_name with
    | none => none
    | some b => some (b, p)

/-- Embedding of `Portfolio.reconcile_positions`: for each snapshot entry with a positive
quantity, overwrite the agent's holding of that token with the snapshot value
and add the value to the aggregate per-token total; skip non-positive
entries.  The snapshot is the item list of a Python dict, so its keys are
pairwise distinct. -/
def Portfolio.reconcile_positions (p : Portfolio) (agent_name : String) :
    List (String × ℚ) → Portfolio
  | [] => p
  | (token_id, shares) :: rest =>
    if shares ≤ 0 then p.reconcile_positions agent_name rest
    else
      ({ p with
        agent_positions := fun a t =>
          if a = agent_name ∧ t = token_id then shares else p.agent_positions a t
        positions := fun t =>
          if t = token_id then p.positions t + shares else p.positions t
        } : Portfolio).reconcile_positions agent_name rest

/-- One trade request, as passed to `validate_trade` / `apply_trade`. -/
structure Trade where
  token_id : String
  side : String
  amount : ℚ
  price : ℚ

/-- Run a sequence of trades for one agent, where each `apply_trade` is
preceded by a `validate_trade` that returned ok for the same arguments
(`none` if validation fails or application raises). -/
def run_trades (agent_name : String) (p : Portfolio) : List Trade → Option Portfolio
  | [] => some p
  | t :: ts =>
    if (p.validate_trade agent_name t.token_id t.side t.amount t.price).success then
      match p.apply_trade agent_name t.token_id t.side t.amount t.price with
      | some (_, p2) => run_trades agent_name p2 ts
      | none => none
    else none

/-- Run a sequence of `register_agent` calls. -/
def run_registrations : Portfolio → List (String × ℚ) → Portfolio
  | p, [] => p
  | p, (n, d) :: rest => run_registrations (p.register_agent n d).2 rest

/-- Sum of all allocated agent balances. -/
def sumBalances (p : Portfolio) : ℚ := (p.agent_balances.map Prod.snd).sum

/-- Ledger soundness invariant for one agent used by the trade-sequence
claims: the agent's balance (when registered) never drops below `-tol`, and
all per-agent and aggregate share counts stay non-negative. -/
def Portfolio.Inv (p : Portfolio) (agent_name : String) : Prop :=
  (∀ b, p.agent_balances.lookup agent_name = some b → -tol ≤ b) ∧
  (∀ a t, 0 ≤ p.agent_positions a t) ∧
  (∀ t, 0 ≤ p.positions t)

/-- State after registering agent A against a treasury of 5 (scenario). -/
def scenP1 : Portfolio := (( Portfolio.init 5).register_agent "A" 10).2

/-- State after agent A buys 3 dollars at price 0.30 (scenario). -/
def scenP2 : Portfolio :=
  ((scenP1.apply_trade "A" "tok" "BUY" 3 (3/10)).getD (0, scenP1)).2

/-- State after agent A sells 3 dollars at price 0.30 (scenario). -/
def scenP3 : Portfolio :=
  ((scenP2.apply_trade "A" "tok" "SELL" 3 (3/10)).getD (0, scenP2)).2

/-- State used by the C1 counterexample: one agent registered with the
whole treasury of 100. -/
def c1P : Portfolio := (( Portfolio.init 100).register_agent "A" 100).2

/-- The single validated BUY used in the C1 witness. -/
def c1T : Trade := ⟨"tok", "BUY", 3, 3/10⟩

/-- A trade proposal as produced by the strategy agents: keys `token_id`,
`side`, `amount`, `price` of the Python proposal dict. -/
structure Proposal where
  token_id : String
  side : String
  amount : ℚ
  price : ℚ
deriving DecidableEq

/-- Outcome of the single-model veto stage. -/
inductive VetoOutcome
  | veto
  | approve (p : Proposal)
deriving DecidableEq

/-- Structured shape of an advisory-model response for the veto stage:
`action` (`EXECUTE` or `SKIP`) with optional overrides. -/
structure VetoModelDecision where
  action : String
  side : Option String
  amount : Option ℚ
  price : Option ℚ
deriving DecidableEq

/-- Modelled from the spec: `BaseAgent.manage_with_llm`, the single-model
veto/adjust stage of the arbitration layer, is invoked from
`src/agents/llm_agent.py` (and the other strategy agents) but its definition
is not present under `src/` (the `src/base_agent.py` shipped here is an older
variant without it).  Following spec section 4.4: a SELL on an instrument of
which the agent currently holds zero shares is vetoed before any model call
is made; with no model configured the stage resolves to pass-through; an
unparsable model response (`none`) re-emits the original proposal; otherwise
the model may skip or approve with overrides, the adjusted cash amount
clamped to be non-negative.  The second component of the result counts
advisory-model invocations. -/
def manage_with_llm (heldShares : ℚ) (proposal : Proposal)
    (modelConfigured : Bool) (modelResponse : Option VetoModelDecision) :
    VetoOutcome × Nat :=
  if upper proposal.side = "SELL" ∧ heldShares = 0 then (VetoOutcome.veto, 0)
  else if modelConfigured = false then (VetoOutcome.approve proposal, 0)
  else
    match modelResponse with
    | none => (VetoOutcome.approve proposal, 1)
    | some d =>
      if upper d.action = "SKIP" then (VetoOutcome.veto, 1)
      else
        (VetoOutcome.approve
          { proposal with
            side := (d.side.map upper).getD proposal.side
            amount := (d.amount.map (fun a => max 0 a)).getD proposal.amount
            price := d.price.getD proposal.price }, 1)

/-- Parsed coordinator response as read by
`HivemindCoordinator.collaborative_decision`: the fields the code extracts
from the coordinator JSON.  `none` for `side` and `price` also covers the
`float(...)` conversion failures the code swallows. -/
structure CoordDecision where
  action : String
  side : Option String
  amount : Option ℚ
  price : Option ℚ
deriving DecidableEq

/-- Return value of `collaborative_decision`: Python `None` (skip / veto),
the sentinel dict `{FALLBACK_FLAG: True}` (fallback), or the final, possibly
modified proposal dict.  The sentinel key `__hivemind_fallback__` never
occurs in a proposal dict, so the three shapes are distinguishable, which
the inductive encodes. -/
inductive HivemindResult
  | skip
  | fallback
  | final (p : Proposal)
deriving DecidableEq

/-- Embedding of `HivemindCoordinator.collaborative_decision`
(src/core/hivemind.py lines 70-174), abstracted over the parsed coordinator
response: `coord = none` is exactly the case where the coordinator model call
failed (`_call_model` returned `None`) or its response could not be parsed as
JSON (`_parse_json` returned `None`).  The specialist loop only contributes
prompt text and is not part of the returned decision. -/
def collaborative_decision (enabled : Bool) (proposal : Proposal)
    (coord : Option CoordDecision) : HivemindResult :=
  if enabled = false then HivemindResult.skip
  else
    match coord with
    | none => HivemindResult.fallback
    | some d =>
      if upper d.action ≠ "EXECUTE" then HivemindResult.skip
      else
        HivemindResult.final
          { proposal with
            side :=
              match d.side with
              | some s => if s ≠ "" then upper s else proposal.side
              | none => proposal.side
            price := d.price.getD proposal.price
            amount := (d.amount.map (fun a => max 0 a)).getD proposal.amount }

/-- A cached item carrying its fetch timestamp (`{"price"/"orderbook": ...,
"timestamp": time.time()}`). -/
structure CacheEntry (α : Type) where
  value : α
  timestamp : ℚ
deriving DecidableEq

/-- An order book as consumed by `MarketDataService._compute_mid_price`:
lists of levels, each level reduced to its parsed price (`none` when the
level has no parsable `price` field). -/
structure Orderbook where
  bids : List (Option ℚ)
  asks : List (Option ℚ)
deriving DecidableEq

/-- Embedding of `MarketDataService._top_price`: the first level's parsed price, `none`
for an empty/missing level list or an unparsable first level. -/
def top_price : List (Option ℚ) → Option ℚ
  | [] => none
  | level :: _ => level

/-- Embedding of `MarketDataService._compute_mid_price`. -/
def compute_mid_price (book : Orderbook) : Option ℚ :=
  match top_price book.bids, top_price book.asks with
  | none, none => none
  | none, some a => some a
  | some b, none => some b
  | some b, some a => some ((b + a) / 2)

/-- Cache state of `MarketDataService`: the TTL (`settings.cache_ttl`) and
the two per-token caches. -/
structure MarketDataState where
  cache_ttl : ℚ
  orderbook_cache : String → Option (CacheEntry Orderbook)
  token_price_cache : String → Option (CacheEntry ℚ)

/-- Cache-miss path of `MarketDataService._fetch_orderbook`: the HTTP
request's outcome is the oracle `fetched` (`none` covers a raised exception
and an empty book, neither of which is cached). -/
def fetch_orderbook_miss (st : MarketDataState) (now : ℚ) (token_id : String)
    (fetched : Option Orderbook) : Option Orderbook × MarketDataState :=
  match fetched with
  | none => (none, st)
  | some book =>
    (some book,
      { st with
        orderbook_cache := fun t =>
          if t = token_id then some ⟨book, now⟩ else st.orderbook_cache t })

/-- Embedding of `MarketDataService._fetch_orderbook` (src/core/market_data.py
lines 159-181). -/
def fetch_orderbook (st : MarketDataState) (now : ℚ) (token_id : String)
    (fetched : Option Orderbook) : Option Orderbook × MarketDataState :=
  match st.orderbook_cache token_id with
  | some c =>
    if now - c.timestamp ≤ st.cache_ttl then (some c.value, st)
    else fetch_orderbook_miss st now token_id fetched
  | none => fetch_orderbook_miss st now token_id fetched

/-- Price-cache-miss path of `MarketDataService.get_market_price`: refetch
the order book, recompute the mid price, cache it on success. -/
def get_market_price_miss (st : MarketDataState) (now : ℚ) (token_id : String)
    (fetched : Option Orderbook) : Option ℚ × MarketDataState :=
  match fetch_orderbook st now token_id fetched with
  | (none, st1) => (none, st1)
  | (some book, st1) =>
    match compute_mid_price book with
    | none => (none, st1)
    | some price =>
      (some price,
        { st1 with
          token_price_cache := fun t =>
            if t = token_id then some ⟨price, now⟩ else st1.token_price_cache t })

/-- Embedding of `MarketDataService.get_market_price` (src/core/market_data.py
lines 71-88). -/
def get_market_price (st : MarketDataState) (now : ℚ) (token_id : String)
    (fetched : Option Orderbook) : Option ℚ × MarketDataState :=
  match st.token_price_cache token_id with
  | some c =>
    if now - c.timestamp ≤ st.cache_ttl then (some c.value, st)
    else get_market_price_miss st now token_id fetched
  | none => get_market_price_miss st now token_id fetched

/-- Concrete cache state for the C8 counterexample: a mid price of 1/2 was
cached at time 0 for token `tok`; TTL is 30; the order-book cache is empty. -/
def exMDState : MarketDataState :=
  { cache_ttl := 30
  , orderbook_cache := fun _ => none
  , token_price_cache := fun t => if t = "tok" then some ⟨1/2, 0⟩ else none }

/-- One entry of the combined swarm proposal list: the decision dict fields
`execute_proposals` reads, plus the market's fallback price used when the
decision carries no price (`decision.get("price") or market.get("price")`). -/
structure SwarmProposal where
  token_id : String
  side : String
  amount : ℚ
  price : ℚ
  market_price : ℚ
deriving DecidableEq

/-- The sort performed by `execute_proposals`
(`proposals.sort(key=..., reverse=True)`): stable sort by proposed cash
amount, descending. -/
def sortProposals (l : List SwarmProposal) : List SwarmProposal :=
  l.mergeSort (fun a b => decide (b.amount ≤ a.amount))

/-- Truthiness filter of `execute_proposals`
(`if not all([side, token_id, amount, price]): continue`); a Python float is
falsy exactly when it equals `0.0`, a string when it is empty. -/
def dispatchable (it : SwarmProposal) : Bool :=
  decide (it.side ≠ "" ∧ it.token_id ≠ "" ∧ it.amount ≠ 0 ∧
    (if it.price ≠ 0 then it.price else it.market_price) ≠ 0)

/-- Embedding of `execute_proposals` (src/swarm.py lines 96-111), reduced to its dispatch
order: the proposals on which `place_bet` is invoked, in invocation order. -/
def execute_proposals (l : List SwarmProposal) : List SwarmProposal :=
  (sortProposals l).filter dispatchable

theorem upper_BUY : upper "BUY" = "BUY" := by decide

theorem upper_SELL : upper "SELL" = "SELL" := by decide

/-- C4: starting from a treasury of 5: registering with request 10 allocates
5; BUY 6 fails validation with the insufficient-funds reason; BUY 3 at 0.30
applies, yielding 10 shares and balance 2; SELL 3.30 at 0.30 (11 shares)
fails validation; SELL 3.00 at 0.30 (10 shares) applies, yielding balance 5
and 0 shares held. -/
theorem C4_scenario_checks :
    (( Portfolio.init 5).register_agent "A" 10).1 = 5 ∧
    (scenP1.validate_trade "A" "tok" "BUY" 6 (3/10)).success = false ∧
    (scenP1.validate_trade "A" "tok" "BUY" 6 (3/10)).message =
      "Insufficient allocated funds" ∧
    (scenP1.validate_trade "A" "tok" "BUY" 3 (3/10)).success = true ∧
    (scenP1.apply_trade "A" "tok" "BUY" 3 (3/10)).map Prod.fst = some 2 ∧
    scenP2.agent_positions "A" "tok" = 10 ∧
    scenP2.get_agent_balance "A" = 2 ∧
    (scenP2.validate_trade "A" "tok" "SELL" (33/10) (3/10)).success = false ∧
    (scenP2.validate_trade "A" "tok" "SELL" 3 (3/10)).success = true ∧
    (scenP2.apply_trade "A" "tok" "SELL" 3 (3/10)).map Prod.fst = some 5 ∧
    scenP3.get_agent_balance "A" = 5 ∧
    scenP3.agent_positions "A" "tok" = 0 := by
  refine ⟨?_, ?_, ?_, ?_, ?_, ?_, ?_, ?_, ?_, ?_, ?_, ?_⟩ <;>
    simp [ Portfolio.init, Portfolio.register_agent, Portfolio.validate_trade,
      Portfolio.apply_trade, Portfolio.get_agent_balance, scenP1, scenP2, scenP3,
      setBal, tol, upper_BUY, upper_SELL, List.lookup] <;>
    norm_num

theorem shares_if_eq_div (amount price : ℚ) :
    (if price ≠ 0 then amount / price else 0) = amount / price := by
  by_cases hp : price = 0 <;> simp [hp]

theorem lookup_append_new {l : List (String × ℚ)} {name : String} {v : ℚ}
    (h : l.lookup name = none) : (l ++ [(name, v)]).lookup name = some v := by
  rw [List.lookup_append, h]
  simp

theorem lookup_setBal_self {l : List (String × ℚ)} {name : String} {v b : ℚ}
    (h : l.lookup name = some b) : (setBal l name v).lookup name = some v := by
  induction l with
  | nil => simp at h
  | cons x xs ih =>
    obtain ⟨k, w⟩ := x
    by_cases hk : name = k
    · subst hk
      simp [setBal, List.lookup_cons]
    · have hbeq : (name == k) = false := beq_eq_false_iff_ne.mpr hk
      simp only [List.lookup_cons, hbeq] at h
      simp only [setBal, List.map_cons]
      rw [if_neg (fun hc => hk hc.symm)]
      simp only [List.lookup_cons, hbeq]
      exact ih h

theorem lookup_setBal_ne {l : List (String × ℚ)} {name a : String} {v : ℚ}
    (h : a ≠ name) : (setBal l name v).lookup a = l.lookup a := by
  induction l with
  | nil => simp [setBal]
  | cons x xs ih =>
    obtain ⟨k, w⟩ := x
    simp only [setBal, List.map_cons]
    by_cases hk : k = name
    · subst hk
      have hbeq : (a == k) = false := beq_eq_false_iff_ne.mpr h
      rw [if_pos rfl]
      simp only [List.lookup_cons, hbeq]
      exact ih
    · rw [if_neg hk]
      simp only [List.lookup_cons]
      cases hbeq : a == k
      · exact ih
      · rfl

/-- C3: `validate_trade` fails a BUY exactly when the cash amount exceeds the
agent's current balance by more than the `1e-9` tolerance or is non-positive;
it fails a SELL exactly when `amount / price` exceeds the held shares of the
instrument by more than the tolerance; any other direction fails.  The
embedding of `validate_trade` is a pure function of the ledger, reflecting
that the Python method leaves every observable part of the ledger unchanged. -/
theorem C3_validate_spec (p : Portfolio) (agent_name token_id side : String)
    (amount price : ℚ) :
    (upper side = "BUY" →
      ((p.validate_trade agent_name token_id side amount price).success = false ↔
        p.get_agent_balance agent_name + tol < amount ∨ amount ≤ 0)) ∧
    (upper side = "SELL" →
      ((p.validate_trade agent_name token_id side amount price).success = false ↔
        p.agent_positions agent_name token_id + tol < amount / price)) ∧
    (upper side ≠ "BUY" → upper side ≠ "SELL" →
      (p.validate_trade agent_name token_id side amount price).success = false) := by
  refine ⟨?_, ?_, ?_⟩
  · intro h
    have e : p.validate_trade agent_name token_id side amount price =
        (if amount > p.get_agent_balance agent_name + tol then
          ⟨false, "Insufficient allocated funds"⟩
        else if amount ≤ 0 then ⟨false, "Amount must be positive"⟩
        else ⟨true, ""⟩) := by
      unfold Portfolio.validate_trade Portfolio.get_agent_balance
      rw [h]
      simp
    rw [e]
    split_ifs with h1 h2
    · simpa using Or.inl h1
    · simpa using Or.inr h2
    · simpa using ⟨not_lt.mp h1, not_le.mp h2⟩
  · intro h
    have e : p.validate_trade agent_name token_id side amount price =
        (if amount / price > p.agent_positions agent_name token_id + tol then
          ⟨false, "Insufficient position to sell"⟩
        else ⟨true, ""⟩) := by
      unfold Portfolio.validate_trade
      rw [h, shares_if_eq_div]
      simp
    rw [e]
    split_ifs with h1
    · simpa using h1
    · simpa using h1
  · intro h1 h2
    simp [ Portfolio.validate_trade, h1, h2]

/-- Witness for C3 at a concrete input: the insufficient-funds BUY of the
scenario state. -/
theorem C3_validate_spec_witness :
    (scenP1.validate_trade "A" "tok" "BUY" 6 (3/10)).success = false ↔
      scenP1.get_agent_balance "A" + tol < 6 ∨ (6 : ℚ) ≤ 0 :=
  (C3_validate_spec scenP1 "A" "tok" "BUY" 6 (3/10)).1 (by decide)

/-- C2 counterexample: with a treasury of 100, registering with a negative
requested allocation of -5 returns 0, not `min(requestedAllocation,
remainingTreasury) = -5`: the code clamps the request at 0 first. -/
theorem C2_counterexample :
    (( Portfolio.init 100).register_agent "A" (-5)).1 = 0 ∧
    min (-5 : ℚ) ( Portfolio.init 100).cash_reserve = -5 ∧
    (( Portfolio.init 100).register_agent "A" (-5)).1 ≠
      min (-5 : ℚ) ( Portfolio.init 100).cash_reserve := by
  refine ⟨?_, ?_, ?_⟩ <;>
    simp [ Portfolio.init, Portfolio.register_agent] <;> norm_num

theorem run_registrations_inv (regs : List (String × ℚ)) :
    ∀ p : Portfolio, 0 ≤ p.cash_reserve →
      0 ≤ (run_registrations p regs).cash_reserve ∧
      (run_registrations p regs).cash_reserve +
          sumBalances (run_registrations p regs) =
        p.cash_reserve + sumBalances p := by
  induction regs with
  | nil =>
    intro p hp
    exact ⟨hp, rfl⟩
  | cons x rest ih =>
    intro p hp
    obtain ⟨n, d⟩ := x
    simp only [run_registrations]
    cases hl : p.agent_balances.lookup n with
    | some b =>
      have hnop : (p.register_agent n d).2 = p := by
        simp [ Portfolio.register_agent, hl]
      rw [hnop]
      exact ih p hp
    | none =>
      have h0 : 0 ≤ min (max 0 d) p.cash_reserve :=
        le_min (le_max_left 0 d) hp
      have h1 : min (max 0 d) p.cash_reserve ≤ p.cash_reserve :=
        min_le_right _ _
      have hres : (p.register_agent n d).2.cash_reserve =
          p.cash_reserve - min (max 0 d) p.cash_reserve := by
        simp [ Portfolio.register_agent, hl]
      have hsum : sumBalances (p.register_agent n d).2 =
          sumBalances p + min (max 0 d) p.cash_reserve := by
        simp [ Portfolio.register_agent, hl, sumBalances]
      obtain ⟨ih1, ih2⟩ := ih (p.register_agent n d).2 (by rw [hres]; linarith)
      refine ⟨ih1, ?_⟩
      rw [ih2, hres, hsum]
      ring

/-- C2: `register_agent` is idempotent per agent name (a second call with any
requested amount returns the first call's allocation and leaves the ledger
unchanged); a first registration allocates
`min(max(0, requested), remainingTreasury)` and decrements the treasury by
exactly that amount; and across every sequence of registrations against a
non-negative initial treasury, the sum of all allocated balances never
exceeds the initial treasury. -/
theorem C2_register_spec :
    (∀ (p : Portfolio) (name : String) (d d' : ℚ),
      ((p.register_agent name d).2).register_agent name d' =
        p.register_agent name d) ∧
    (∀ (p : Portfolio) (name : String) (d : ℚ),
      p.agent_balances.lookup name = none →
        (p.register_agent name d).1 = min (max 0 d) p.cash_reserve ∧
        (p.register_agent name d).2.cash_reserve =
          p.cash_reserve - min (max 0 d) p.cash_reserve) ∧
    (∀ c : ℚ, 0 ≤ c → ∀ regs : List (String × ℚ),
      sumBalances (run_registrations ( Portfolio.init c) regs) ≤ c) := by
  refine ⟨?_, ?_, ?_⟩
  · intro p name d d'
    cases hl : p.agent_balances.lookup name with
    | some b =>
      have h1 : p.register_agent name d = (b, p) := by
        simp [ Portfolio.register_agent, hl]
      rw [h1]
      simp [ Portfolio.register_agent, hl]
    | none =>
      have h2 : (p.register_agent name d).2.agent_balances.lookup name =
          some (min (max 0 d) p.cash_reserve) := by
        simp only [ Portfolio.register_agent, hl]
        exact lookup_append_new hl
      have h3 : (p.register_agent name d).1 = min (max 0 d) p.cash_reserve := by
        simp [ Portfolio.register_agent, hl]
      conv_lhs => rw [ Portfolio.register_agent]
      rw [h2]
      show (min (max 0 d) p.cash_reserve, (p.register_agent name d).2) =
        p.register_agent name d
      rw [← h3]
  · intro p name d hl
    constructor <;> simp [ Portfolio.register_agent, hl]
  · intro c hc regs
    have h := run_registrations_inv regs ( Portfolio.init c)
      (by simp [ Portfolio.init]; exact hc)
    have hinit : sumBalances ( Portfolio.init c) = 0 := by
      simp [ Portfolio.init, sumBalances]
    have hres : ( Portfolio.init c).cash_reserve = c := rfl
    obtain ⟨h1, h2⟩ := h
    rw [hinit, hres] at h2
    linarith

/-- Witness for C2 at concrete inputs: a second registration of agent A is a
no-op, the first registration of A allocates `min(max(0, 30), 100) = 30`, and
a registration sequence that over-asks stays within the treasury of 100. -/
theorem C2_register_spec_witness :
    ((( Portfolio.init 100).register_agent "A" 30).2).register_agent "A" 50 =
      ( Portfolio.init 100).register_agent "A" 30 ∧
    (( Portfolio.init 100).register_agent "A" 30).1 =
      min (max 0 30) ( Portfolio.init 100).cash_reserve ∧
    sumBalances (run_registrations ( Portfolio.init 100)
      [("A", 30), ("B", 200)]) ≤ 100 :=
  ⟨C2_register_spec.1 ( Portfolio.init 100) "A" 30 50,
   (C2_register_spec.2.1 ( Portfolio.init 100) "A" 30 (by simp [ Portfolio.init])).1,
   C2_register_spec.2.2 100 (by norm_num) [("A", 30), ("B", 200)]⟩

/-- C10: `apply_trade` mutates at most the named agent's cash balance, that
agent's share count for the named instrument, and the aggregate total for
that instrument; the treasury reserve, every other agent's balance, every
other agent's positions, the named agent's other positions and every other
aggregate total are unchanged. -/
theorem C10_apply_trade_frame (p : Portfolio) (agent_name token_id side : String)
    (amount price : ℚ) (b2 : ℚ) (p2 : Portfolio)
    (h : p.apply_trade agent_name token_id side amount price = some (b2, p2)) :
    p2.cash_reserve = p.cash_reserve ∧
    p2.starting_cash = p.starting_cash ∧
    (∀ a, a ≠ agent_name →
      p2.agent_balances.lookup a = p.agent_balances.lookup a) ∧
    (∀ a t, a ≠ agent_name → p2.agent_positions a t = p.agent_positions a t) ∧
    (∀ t, t ≠ token_id →
      p2.agent_positions agent_name t = p.agent_positions agent_name t) ∧
    (∀ t, t ≠ token_id → p2.positions t = p.positions t) := by
  by_cases hb : upper side = "BUY"
  · cases hl : p.agent_balances.lookup agent_name with
    | none => simp [ Portfolio.apply_trade, hb, hl] at h
    | some b =>
      simp only [ Portfolio.apply_trade, hb, hl, if_pos, if_true, Option.some.injEq,
        Prod.mk.injEq, reduceIte] at h
      obtain ⟨h1, h2⟩ := h
      subst h2
      refine ⟨rfl, rfl, fun a ha => lookup_setBal_ne ha, ?_, ?_, ?_⟩
      · intro a t ha
        simp [ha]
      · intro t ht
        simp [ht]
      · intro t ht
        simp [ht]
  · by_cases hs : upper side = "SELL"
    · cases hl : p.agent_balances.lookup agent_name with
      | none => simp [ Portfolio.apply_trade, hb, hs, hl] at h
      | some b =>
        simp only [ Portfolio.apply_trade, hb, hs, hl, if_false, if_true,
          Option.some.injEq, Prod.mk.injEq, reduceIte, String.reduceEq] at h
        obtain ⟨h1, h2⟩ := h
        subst h2
        refine ⟨rfl, rfl, fun a ha => lookup_setBal_ne ha, ?_, ?_, ?_⟩
        · intro a t ha
          simp [ha]
        · intro t ht
          simp [ht]
        · intro t ht
          simp [ht]
    · cases hl : p.agent_balances.lookup agent_name with
      | none => simp [ Portfolio.apply_trade, hb, hs, hl] at h
      | some b =>
        simp only [ Portfolio.apply_trade, hb, hs, hl, if_false, Option.some.injEq,
          Prod.mk.injEq, reduceIte, String.reduceEq] at h
        obtain ⟨h1, h2⟩ := h
        subst h2
        exact ⟨rfl, rfl, fun _ _ => rfl, fun _ _ _ => rfl, fun _ _ => rfl,
          fun _ _ => rfl⟩

/-- Witness for C10 at a concrete input: the scenario BUY of 3 dollars at
price 0.30 leaves the treasury, foreign balances and foreign positions
untouched. -/
theorem C10_apply_trade_frame_witness :
    scenP2.cash_reserve = scenP1.cash_reserve ∧
    scenP2.starting_cash = scenP1.starting_cash ∧
    (∀ a, a ≠ "A" →
      scenP2.agent_balances.lookup a = scenP1.agent_balances.lookup a) ∧
    (∀ a t, a ≠ "A" → scenP2.agent_positions a t = scenP1.agent_positions a t) ∧
    (∀ t, t ≠ "tok" →
      scenP2.agent_positions "A" t = scenP1.agent_positions "A" t) ∧
    (∀ t, t ≠ "tok" → scenP2.positions t = scenP1.positions t) :=
  C10_apply_trade_frame scenP1 "A" "tok" "BUY" 3 (3/10) 2 scenP2
    (by simp [scenP1, scenP2, Portfolio.init, Portfolio.register_agent,
      Portfolio.apply_trade, setBal, upper_BUY]; norm_num)

theorem step_preserves_inv (p : Portfolio) (agent_name : String) (t : Trade)
    (hp : p.Inv agent_name) (hpr : 0 < t.price) (ham : 0 < t.amount)
    (hv : (p.validate_trade agent_name t.token_id t.side t.amount
      t.price).success = true)
    (b2 : ℚ) (p2 : Portfolio)
    (ha : p.apply_trade agent_name t.token_id t.side t.amount t.price =
      some (b2, p2)) :
    p2.Inv agent_name := by
  obtain ⟨hbal, hposA, hposT⟩ := hp
  have hspos : 0 < t.amount / t.price := div_pos ham hpr
  by_cases hb : upper t.side = "BUY"
  · cases hl : p.agent_balances.lookup agent_name with
    | none => simp [ Portfolio.apply_trade, hb, hl] at ha
    | some b =>
      have hvb : ¬ (t.amount > b + tol) := by
        intro hgt
        have hf : (p.validate_trade agent_name t.token_id t.side t.amount
            t.price).success = false := by
          unfold Portfolio.validate_trade
          rw [hb]
          simp [hl, hgt]
        rw [hf] at hv
        exact absurd hv (by simp)
      simp only [ Portfolio.apply_trade, hb, hl, reduceIte, Option.some.injEq,
        Prod.mk.injEq] at ha
      obtain ⟨h1, h2⟩ := ha
      subst h2
      refine ⟨?_, ?_, ?_⟩
      · intro bb hbb
        rw [lookup_setBal_self hl] at hbb
        obtain rfl : b - t.amount = bb := by injection hbb
        push_neg at hvb
        unfold tol at hvb ⊢
        linarith
      · intro a tt
        dsimp only
        by_cases hat : a = agent_name ∧ tt = t.token_id
        · rw [if_pos hat, shares_if_eq_div]
          have := hposA a tt
          linarith
        · rw [if_neg hat]
          exact hposA a tt
      · intro tt
        dsimp only
        by_cases htt : tt = t.token_id
        · rw [if_pos htt, shares_if_eq_div]
          have := hposT tt
          linarith
        · rw [if_neg htt]
          exact hposT tt
  · by_cases hs : upper t.side = "SELL"
    · cases hl : p.agent_balances.lookup agent_name with
      | none => simp [ Portfolio.apply_trade, hb, hs, hl] at ha
      | some b =>
        simp only [ Portfolio.apply_trade, hb, hs, hl, if_false, if_true,
          reduceIte, String.reduceEq, Option.some.injEq, Prod.mk.injEq] at ha
        obtain ⟨h1, h2⟩ := ha
        subst h2
        refine ⟨?_, ?_, ?_⟩
        · intro bb hbb
          rw [lookup_setBal_self hl] at hbb
          obtain rfl : b + t.amount = bb := by injection hbb
          have := hbal b hl
          linarith
        · intro a tt
          dsimp only
          by_cases hat : a = agent_name ∧ tt = t.token_id
          · rw [if_pos hat]
            exact le_max_left 0 _
          · rw [if_neg hat]
            exact hposA a tt
        · intro tt
          dsimp only
          by_cases htt : tt = t.token_id
          · rw [if_pos htt]
            exact le_max_left 0 _
          · rw [if_neg htt]
            exact hposT tt
    · have hf : (p.validate_trade agent_name t.token_id t.side t.amount
          t.price).success = false := by
        simp [ Portfolio.validate_trade, hb, hs]
      rw [hf] at hv
      exact absurd hv (by simp)

/-- C1 counterexample: the `1e-9` validation tolerance admits a BUY of
`100 + 1e-9` against a balance of 100; applying that validated trade leaves
the agent's cash balance strictly negative, so the claimed `>= 0` invariant
fails.  (Trade price 1 and a positive amount, i.e. an entirely ordinary
trade shape.) -/
theorem C1_counterexample :
    (c1P.validate_trade "A" "tok" "BUY" (100 + 1/1000000000) 1).success =
      true ∧
    (c1P.apply_trade "A" "tok" "BUY" (100 + 1/1000000000) 1).map Prod.fst =
      some (-(1/1000000000)) ∧
    (((c1P.apply_trade "A" "tok" "BUY" (100 + 1/1000000000) 1).getD
      (0, c1P)).2).get_agent_balance "A" < 0 := by
  refine ⟨?_, ?_, ?_⟩ <;>
    simp [c1P, Portfolio.init, Portfolio.register_agent, Portfolio.validate_trade,
      Portfolio.apply_trade, Portfolio.get_agent_balance, setBal, tol,
      upper_BUY]
  all_goals norm_num

/-- C1 (amended): for every sequence of BUY/SELL trades with positive price
and positive cash amount against one agent, each applied only after a
validation that returned ok for the same arguments, and starting from any
ledger state satisfying the soundness invariant (balance at least `-tol`,
all share counts non-negative), the final state still satisfies it: every
per-agent and aggregate share count stays `>= 0` and the agent's cash
balance stays `>= -1e-9` (the validation tolerance allows an overdraft of at
most `1e-9`, so `>= 0` itself is not preserved). -/
theorem C1_amended (agent_name : String) (p : Portfolio) (ts : List Trade)
    (hp : p.Inv agent_name)
    (hgood : ∀ t ∈ ts, 0 < t.price ∧ 0 < t.amount) :
    ((run_trades agent_name p ts).getD p).Inv agent_name := by
  induction ts generalizing p with
  | nil => simpa [run_trades] using hp
  | cons t rest ih =>
    simp only [run_trades]
    by_cases hv : (p.validate_trade agent_name t.token_id t.side t.amount
        t.price).success = true
    · rw [if_pos hv]
      cases ha : p.apply_trade agent_name t.token_id t.side t.amount t.price with
      | none => simpa using hp
      | some pr =>
        obtain ⟨b2, p2⟩ := pr
        have hp2 : p2.Inv agent_name :=
          step_preserves_inv p agent_name t hp (hgood t (by simp)).1
            (hgood t (by simp)).2 hv b2 p2 ha
        have hrest := ih p2 hp2 (fun t' ht' => hgood t' (by simp [ht']))
        cases hr : run_trades agent_name p2 rest with
        | none =>
          rw [hr] at hrest
          simpa [hr] using hp
        | some q =>
          rw [hr] at hrest
          simpa [hr] using hrest
    · rw [if_neg hv]
      simpa using hp

/-- Witness for C1: the scenario agent (balance 5) performs a validated BUY
of 3 dollars at price 0.30; the invariant holds afterwards. -/
theorem C1_amended_witness :
    ((run_trades "A" scenP1 [c1T]).getD scenP1).Inv "A" :=
  C1_amended "A" scenP1 [c1T]
    (by
      refine ⟨?_, ?_, ?_⟩
      · intro b hb
        simp [scenP1, Portfolio.init, Portfolio.register_agent] at hb
        subst hb
        norm_num [tol]
      · intro a t
        simp [scenP1, Portfolio.init, Portfolio.register_agent]
      · intro t
        simp [scenP1, Portfolio.init, Portfolio.register_agent])
    (by
      intro t ht
      simp only [List.mem_singleton] at ht
      subst ht
      exact ⟨by norm_num [c1T], by norm_num [c1T]⟩)

theorem reconcile_untouched (agent_name tok : String) (l : List (String × ℚ)) :
    ∀ p : Portfolio, (∀ q, (tok, q) ∈ l → q ≤ 0) →
      (∀ a, (p.reconcile_positions agent_name l).agent_positions a tok =
        p.agent_positions a tok) ∧
      (p.reconcile_positions agent_name l).positions tok = p.positions tok := by
  induction l with
  | nil =>
    intro p _
    exact ⟨fun a => rfl, rfl⟩
  | cons x rest ih =>
    intro p hnp
    obtain ⟨k, v⟩ := x
    by_cases hv : v ≤ 0
    · simp only [ Portfolio.reconcile_positions, if_pos hv]
      exact ih p (fun q hq => hnp q (List.mem_cons_of_mem _ hq))
    · have hk : k ≠ tok := by
        intro hkt
        subst hkt
        exact hv (hnp v (List.mem_cons_self _ _))
      simp only [ Portfolio.reconcile_positions, if_neg hv]
      obtain ⟨iha, ihp⟩ := ih _ (fun q hq => hnp q (List.mem_cons_of_mem _ hq))
      refine ⟨fun a => ?_, ?_⟩
      · rw [iha a]
        dsimp only
        rw [if_neg (fun hc => hk hc.2.symm)]
      · rw [ihp]
        dsimp only
        rw [if_neg (fun hc => hk hc.symm)]

theorem reconcile_frame (agent_name : String) (l : List (String × ℚ)) :
    ∀ p : Portfolio,
      (p.reconcile_positions agent_name l).agent_balances = p.agent_balances ∧
      (p.reconcile_positions agent_name l).cash_reserve = p.cash_reserve ∧
      (p.reconcile_positions agent_name l).starting_cash = p.starting_cash ∧
      (∀ a t, a ≠ agent_name →
        (p.reconcile_positions agent_name l).agent_positions a t =
          p.agent_positions a t) := by
  induction l with
  | nil =>
    intro p
    exact ⟨rfl, rfl, rfl, fun a t _ => rfl⟩
  | cons x rest ih =>
    intro p
    obtain ⟨k, v⟩ := x
    by_cases hv : v ≤ 0
    · simp only [ Portfolio.reconcile_positions, if_pos hv]
      exact ih p
    · simp only [ Portfolio.reconcile_positions, if_neg hv]
      obtain ⟨ih1, ih2, ih3, ih4⟩ := ih _
      refine ⟨ih1, ih2, ih3, fun a t ha => ?_⟩
      rw [ih4 a t ha]
      dsimp only
      rw [if_neg (fun hc => ha hc.1)]

theorem reconcile_pos_entry (agent_name : String) (l : List (String × ℚ)) :
    ∀ p : Portfolio, (l.map Prod.fst).Nodup →
      ∀ tok q, (tok, q) ∈ l → 0 < q →
        (p.reconcile_positions agent_name l).agent_positions agent_name tok = q ∧
        (p.reconcile_positions agent_name l).positions tok =
          p.positions tok + q := by
  induction l with
  | nil =>
    intro p _ tok q hmem
    exact absurd hmem (List.not_mem_nil _)
  | cons x rest ih =>
    intro p hnd tok q hmem hq
    obtain ⟨k, v⟩ := x
    rcases List.mem_cons.mp hmem with heq | htail
    · have h1 : tok = k := congrArg Prod.fst heq
      have h2 : q = v := congrArg Prod.snd heq
      subst h1
      subst h2
      have hnotin : tok ∉ rest.map Prod.fst := by
        have := hnd
        simp only [List.map_cons, List.nodup_cons] at this
        exact this.1
      have hnp : ∀ q', (tok, q') ∈ rest → q' ≤ 0 := by
        intro q' hq'
        exact absurd (List.mem_map_of_mem Prod.fst hq') hnotin
      simp only [ Portfolio.reconcile_positions, if_neg (not_le.mpr hq)]
      obtain ⟨ua, up⟩ := reconcile_untouched agent_name tok rest _ hnp
      refine ⟨?_, ?_⟩
      · rw [ua agent_name]
        dsimp only
        rw [if_pos ⟨rfl, rfl⟩]
      · rw [up]
        dsimp only
        rw [if_pos rfl]
    · have hktok : k ≠ tok := by
        intro hkt
        subst hkt
        have : k ∈ rest.map Prod.fst := List.mem_map_of_mem Prod.fst htail
        simp only [List.map_cons, List.nodup_cons] at hnd
        exact hnd.1 this
      have hnd' : (rest.map Prod.fst).Nodup := by
        simp only [List.map_cons, List.nodup_cons] at hnd
        exact hnd.2
      by_cases hv : v ≤ 0
      · simp only [ Portfolio.reconcile_positions, if_pos hv]
        exact ih p hnd' tok q htail hq
      · simp only [ Portfolio.reconcile_positions, if_neg hv]
        obtain ⟨ih1, ih2⟩ := ih _ hnd' tok q htail hq
        refine ⟨ih1, ?_⟩
        rw [ih2]
        dsimp only
        rw [if_neg (fun hc => hktok hc.symm)]

/-- C5 counterexample: the scenario agent holds 10 shares of `tok`; feeding
`reconcile_positions` a snapshot with the positive entry `("tok", 3)` leaves
the agent holding 3 shares — the snapshot value replaces the holding instead
of being added, and the holding decreases, contradicting the claimed
"additively increasing / never decreases" behaviour. -/
theorem C5_counterexample :
    scenP2.agent_positions "A" "tok" = 10 ∧
    (scenP2.reconcile_positions "A" [("tok", 3)]).agent_positions "A" "tok" = 3 ∧
    ¬ (scenP2.agent_positions "A" "tok" ≤
      (scenP2.reconcile_positions "A" [("tok", 3)]).agent_positions "A" "tok") := by
  refine ⟨?_, ?_, ?_⟩ <;>
    simp [scenP1, scenP2, Portfolio.init, Portfolio.register_agent,
      Portfolio.apply_trade, Portfolio.reconcile_positions, setBal, upper_BUY]
  all_goals norm_num

/-- C5 (amended): for every agent, prior ledger state and snapshot with
pairwise-distinct keys (a Python dict), `reconcile_positions` overwrites the
agent's holding of each token carrying a positive snapshot quantity with that
quantity (which may decrease the holding), additively increases the
aggregate per-token total by that quantity, ignores non-positive entries
(tokens all of whose snapshot entries are non-positive, or absent, are
untouched), and leaves balances, the treasury and other agents' positions
unchanged. -/
theorem C5_reconcile_spec (agent_name : String) (p : Portfolio)
    (l : List (String × ℚ)) (hnd : (l.map Prod.fst).Nodup) :
    (∀ tok q, (tok, q) ∈ l → 0 < q →
      (p.reconcile_positions agent_name l).agent_positions agent_name tok = q ∧
      (p.reconcile_positions agent_name l).positions tok =
        p.positions tok + q) ∧
    (∀ tok, (∀ q, (tok, q) ∈ l → q ≤ 0) →
      (∀ a, (p.reconcile_positions agent_name l).agent_positions a tok =
        p.agent_positions a tok) ∧
      (p.reconcile_positions agent_name l).positions tok = p.positions tok) ∧
    (∀ a t, a ≠ agent_name →
      (p.reconcile_positions agent_name l).agent_positions a t =
        p.agent_positions a t) ∧
    (p.reconcile_positions agent_name l).agent_balances = p.agent_balances ∧
    (p.reconcile_positions agent_name l).cash_reserve = p.cash_reserve :=
  ⟨fun tok q hmem hq => reconcile_pos_entry agent_name l p hnd tok q hmem hq,
   fun tok hnp => reconcile_untouched agent_name tok l p hnp,
   (reconcile_frame agent_name l p).2.2.2,
   (reconcile_frame agent_name l p).1,
   (reconcile_frame agent_name l p).2.1⟩

/-- Witness for C5 at a concrete input: reconciling the scenario state with
the snapshot `{"tok": 3, "oth": -1}`. -/
theorem C5_reconcile_spec_witness :
    ((scenP2.reconcile_positions "A" [("tok", 3), ("oth", -1)]).agent_positions
        "A" "tok" = 3 ∧
      (scenP2.reconcile_positions "A" [("tok", 3), ("oth", -1)]).positions
        "tok" = scenP2.positions "tok" + 3) ∧
    ((∀ a, (scenP2.reconcile_positions "A" [("tok", 3), ("oth", -1)]).agent_positions
        a "oth" = scenP2.agent_positions a "oth") ∧
      (scenP2.reconcile_positions "A" [("tok", 3), ("oth", -1)]).positions
        "oth" = scenP2.positions "oth") ∧
    (scenP2.reconcile_positions "A" [("tok", 3), ("oth", -1)]).agent_balances =
      scenP2.agent_balances :=
  have h := C5_reconcile_spec "A" scenP2 [("tok", 3), ("oth", -1)] (by simp)
  ⟨h.1 "tok" 3 (by simp) (by norm_num),
   h.2.1 "oth" (by
      intro q hq
      simp at hq
      simp [hq]),
   h.2.2.2.1⟩

/-- C6: for every agent holding zero shares of an instrument, any SELL
proposal on that instrument resolves to a veto with zero advisory-model
invocations, regardless of whether a model is configured and regardless of
any model output.  (Spec-modelled veto stage; see `manage_with_llm`.) -/
theorem C6_sell_zero_veto (heldShares : ℚ) (proposal : Proposal)
    (modelConfigured : Bool) (modelResponse : Option VetoModelDecision)
    (hside : upper proposal.side = "SELL") (hzero : heldShares = 0) :
    manage_with_llm heldShares proposal modelConfigured modelResponse =
      (VetoOutcome.veto, 0) := by
  unfold manage_with_llm
  rw [if_pos ⟨hside, hzero⟩]

/-- Witness for C6 at a concrete input: a SELL proposal with zero held
shares is vetoed without a model call even though a model is configured and
would have answered EXECUTE. -/
theorem C6_sell_zero_veto_witness :
    manage_with_llm 0 ⟨"tok", "SELL", 1, 1/2⟩ true
      (some ⟨"EXECUTE", none, none, none⟩) = (VetoOutcome.veto, 0) :=
  C6_sell_zero_veto 0 ⟨"tok", "SELL", 1, 1/2⟩ true
    (some ⟨"EXECUTE", none, none, none⟩) (by decide) rfl

/-- C7: whenever the coordinator call fails or its response is unparsable
(the parsed coordinator decision is `none`), `collaborative_decision`
returns the fallback signal, which is distinct from the skip/veto result and
from every approved (possibly modified) proposal. -/
theorem C7_consensus_fallback :
    (∀ proposal : Proposal,
      collaborative_decision true proposal none = HivemindResult.fallback) ∧
    HivemindResult.fallback ≠ HivemindResult.skip ∧
    (∀ q : Proposal, HivemindResult.fallback ≠ HivemindResult.final q) := by
  refine ⟨fun proposal => ?_, by simp, fun q => by simp⟩
  simp [collaborative_decision]

/-- C8 counterexample: `tok` has a cached mid price 1/2 fetched at time 0,
the TTL is 30, and the lookup happens at time 100 (stale); the refetch fails
(`none`); `get_market_price` then returns `none` to the caller instead of
serving the last good cached value 1/2 (which survives, un-evicted, in the
cache). -/
theorem C8_counterexample :
    (get_market_price exMDState 100 "tok" none).1 = none ∧
    exMDState.token_price_cache "tok" = some ⟨1/2, 0⟩ ∧
    ¬ ((100 : ℚ) - 0 ≤ exMDState.cache_ttl) ∧
    (get_market_price exMDState 100 "tok" none).1 ≠ some (1/2) := by
  refine ⟨?_, ?_, ?_, ?_⟩
  · simp [exMDState, get_market_price, get_market_price_miss, fetch_orderbook,
      fetch_orderbook_miss]
    norm_num
  · simp [exMDState]
  · norm_num [exMDState]
  · simp [exMDState, get_market_price, get_market_price_miss, fetch_orderbook,
      fetch_orderbook_miss]
    norm_num
    exact fun hcon => Option.noConfusion hcon

/-- C8 (amended): for every instrument whose cached order book and mid-price
are both older than the TTL (or absent), a price lookup attempts a refetch;
if the refetch fails, the caller receives "no price" (`none`) — not the last
good cached value — while the cache state is left completely unchanged: the
stale order book and mid-price entries are not evicted. -/
theorem C8_stale_fetch_failure (st : MarketDataState) (now : ℚ)
    (token_id : String)
    (hp : ∀ c, st.token_price_cache token_id = some c →
      ¬ (now - c.timestamp ≤ st.cache_ttl))
    (hb : ∀ c, st.orderbook_cache token_id = some c →
      ¬ (now - c.timestamp ≤ st.cache_ttl)) :
    get_market_price st now token_id none = (none, st) := by
  have hfetch : fetch_orderbook st now token_id none = (none, st) := by
    unfold fetch_orderbook
    cases hc : st.orderbook_cache token_id with
    | none => rfl
    | some c =>
      dsimp only
      rw [if_neg (hb c hc)]
      rfl
  have hmiss : get_market_price_miss st now token_id none = (none, st) := by
    unfold get_market_price_miss
    rw [hfetch]
  unfold get_market_price
  cases hc : st.token_price_cache token_id with
  | none => exact hmiss
  | some c =>
    dsimp only
    rw [if_neg (hp c hc)]
    exact hmiss

/-- Witness for C8 at a concrete input: the counterexample state itself. -/
theorem C8_stale_fetch_failure_witness :
    get_market_price exMDState 100 "tok" none = (none, exMDState) :=
  C8_stale_fetch_failure exMDState 100 "tok"
    (by
      intro c hc
      simp [exMDState] at hc
      subst hc
      norm_num [exMDState])
    (by
      intro c hc
      simp [exMDState] at hc)

/-- C9: in every round, `execute_proposals` first sorts the combined
proposal list by proposed cash amount, descending, and submits for execution
(in order) exactly the proposals passing its truthiness check: the sorted
list is pairwise non-increasing in amount, the dispatched list is an ordered
sublist of it, and hence every dispatched proposal's amount is `>=` the
amount of each later-dispatched proposal. -/
theorem C9_dispatch_order (l : List SwarmProposal) :
    (sortProposals l).Pairwise (fun a b => b.amount ≤ a.amount) ∧
    List.Sublist (execute_proposals l) (sortProposals l) ∧
    (execute_proposals l).Pairwise (fun a b => b.amount ≤ a.amount) := by
  have hsorted : (sortProposals l).Pairwise (fun a b => b.amount ≤ a.amount) := by
    have h := @List.sorted_mergeSort SwarmProposal
      (fun a b => decide (b.amount ≤ a.amount))
      (fun a b c h₁ h₂ => by
        simp only [decide_eq_true_eq] at *
        exact le_trans h₂ h₁)
      (fun a b => by
        simp only [Bool.or_eq_true, decide_eq_true_eq]
        exact le_total _ _)
      l
    unfold sortProposals
    simpa [List.Sorted, decide_eq_true_eq] using h
  have hsub : List.Sublist (execute_proposals l) (sortProposals l) :=
    List.filter_sublist _
  exact ⟨hsorted, hsub, hsorted.sublist hsub⟩
